import Mathlib

/-!
# Verification of the stream-pmtool scheduling engine

Shallow embedding of `src/202507-app.py` (a Streamlit Gantt-chart project
tracker).  Dates are modelled as integers counting days from a fixed epoch
chosen to fall on a Monday, so that `d % 7` is the zero-based weekday of
day `d` (Monday = 0), matching `pandas.Timestamp.weekday()`.  Fractions of
days (needed for the progress-end computation `Start + (Finish - Start) *
Progress`) live in `ℚ`.  Missing values (`NaT` / `NaN`) are `Option.none`;
a pandas comparison against a missing value is `False`, which the
embeddings reproduce by matching on the option.
-/

namespace PM

/-- One row of the uploaded CSV, after date parsing (`pd.to_datetime` with
`errors='coerce'`): unparseable or missing dates are `none`.  `status` is
`none` when the `Status` cell is missing (`NaN`). -/
structure Task where
  name : String
  project : String
  type : String
  start : Option Int
  finish : Option Int
  completionDate : Option Int
  status : Option String
deriving DecidableEq

/-- Status fill `df['Status'].fillna('未定義')`: a missing status becomes the literal
string `未定義`. -/
def statusFilled (t : Task) : String := t.status.getD "未定義"

/-- The dictionary `progress_map` of `preprocess_data`; `Option` models the
`NaN` that `Series.map` produces on a key that is absent from the dict. -/
def progressMap (s : String) : Option ℚ :=
  if s = "Closed" then some 1
  else if s = "In process" then some (1/2)
  else if s = "Not start" then some 0
  else if s = "未定義" then some 0
  else none

/-- Progress column: `df['Progress'] = df['Status'].map(progress_map).fillna(0.0)`. -/
def progress (t : Task) : ℚ := (progressMap (statusFilled t)).getD 0

/-- Milestone test `df['Type'] == '里程碑'`: only the Chinese label is tested. -/
def isMilestone (t : Task) : Bool := t.type = "里程碑"

/-- Progress bar end `Progress_Finish`: set only on rows where `Start` and `Finish` are
non-null and `Type != '里程碑'`; other rows keep `NaN` (`none`). -/
def progressFinish (t : Task) : Option ℚ :=
  match t.start, t.finish with
  | some s, some f =>
      if isMilestone t then none
      else some ((s : ℚ) + ((f : ℚ) - (s : ℚ)) * progress t)
  | _, _ => none

/-- Kind rank `type_order = (母專案 1, 子專案 2, 里程碑 3)` followed by
`.map(type_order).fillna(4)`. -/
def typeOrder (t : Task) : ℕ :=
  if t.type = "母專案" then 1
  else if t.type = "子專案" then 2
  else if t.type = "里程碑" then 3
  else 4

/-- The boolean mask of `upcoming_tasks`:
`(Finish >= today) & (Finish <= today + 7 days) & Completion_Date.isnull()`.
A `NaT` finish compares `False` in pandas, hence the `none` branch. -/
def upcomingB (today : Int) (t : Task) : Bool :=
  match t.finish with
  | some f => decide (today ≤ f) && decide (f ≤ today + 7) && t.completionDate.isNone
  | none => false

/-- The boolean mask of `overdue_tasks`:
`((Finish < today) & Completion_Date.isnull()) |
 (Completion_Date.notnull() & Finish.notnull() & (Completion_Date > Finish))`. -/
def overdueB (today : Int) (t : Task) : Bool :=
  ((match t.finish with | some f => decide (f < today) | none => false)
      && t.completionDate.isNone)
  || (match t.completionDate, t.finish with
      | some c, some f => decide (f < c)
      | _, _ => false)

/-- OnTrack is the spec's residual class: a finish-dated task that is in
neither view. -/
def onTrackB (today : Int) (t : Task) : Bool :=
  t.finish.isSome && !(overdueB today t) && !(upcomingB today t)

/-- The due-soon view: a plain row filter, no deduplication. -/
def upcoming_tasks (today : Int) (ts : List Task) : List Task :=
  ts.filter (upcomingB today)

/-- Row deduplication `DataFrame.drop_duplicates()` keeps the first occurrence of each fully
identical row; `seen` accumulates rows already emitted. -/
def dropDupAux {α : Type} [DecidableEq α] (seen : List α) : List α → List α
  | [] => []
  | a :: l => if a ∈ seen then dropDupAux seen l else a :: dropDupAux (a :: seen) l

/-- Deduplication from an empty seen-set, as `drop_duplicates` does. -/
def dropDuplicates {α : Type} [DecidableEq α] (l : List α) : List α :=
  dropDupAux [] l

/-- The overdue view: the row filter followed by `.drop_duplicates()`. -/
def overdue_tasks (today : Int) (ts : List Task) : List Task :=
  dropDuplicates (ts.filter (overdueB today))

lemma mem_dropDupAux {α : Type} [DecidableEq α] {a : α} :
    ∀ (seen l : List α), a ∈ dropDupAux seen l ↔ a ∈ l ∧ a ∉ seen := by
  intro seen l
  induction l generalizing seen with
  | nil => simp [dropDupAux]
  | cons b l ih =>
    by_cases hb : b ∈ seen
    · simp only [dropDupAux, hb, if_true, ih, List.mem_cons]
      by_cases hab : a = b
      · subst hab; tauto
      · tauto
    · simp only [dropDupAux, hb, if_false, List.mem_cons, ih]
      by_cases hab : a = b
      · subst hab; tauto
      · tauto

lemma nodup_dropDupAux {α : Type} [DecidableEq α] :
    ∀ (seen l : List α), (dropDupAux seen l).Nodup := by
  intro seen l
  induction l generalizing seen with
  | nil => simp [dropDupAux]
  | cons b l ih =>
    simp only [dropDupAux]
    by_cases hb : b ∈ seen
    · simpa [hb] using ih seen
    · simp only [hb, if_false, List.nodup_cons]
      refine ⟨fun hc => ?_, ih (b :: seen)⟩
      exact ((mem_dropDupAux (b :: seen) l).mp hc).2 (List.mem_cons_self b seen)

lemma mem_dropDuplicates {α : Type} [DecidableEq α] {a : α} {l : List α} :
    a ∈ dropDuplicates l ↔ a ∈ l := by
  simp [dropDuplicates, mem_dropDupAux]

lemma nodup_dropDuplicates {α : Type} [DecidableEq α] (l : List α) :
    (dropDuplicates l).Nodup := nodup_dropDupAux [] l

/-- C1: with `finish = f` present, the task is Overdue exactly when
(`f < today` and no completion date) or (completed at `c > f`); DueSoon
exactly when `today ≤ f ≤ today + 7` and no completion date; a task
completed late is Overdue and not DueSoon even when `f` is within the next
7 days; any other finish-dated task is OnTrack. -/
theorem C1_schedule_classification (today f : Int) (t : Task)
    (hf : t.finish = some f) :
    (overdueB today t = true ↔
      ((f < today ∧ t.completionDate = none) ∨ ∃ c, t.completionDate = some c ∧ f < c))
  ∧ (upcomingB today t = true ↔
      (today ≤ f ∧ f ≤ today + 7 ∧ t.completionDate = none))
  ∧ (∀ c, t.completionDate = some c → f < c → today ≤ f → f ≤ today + 7 →
      overdueB today t = true ∧ upcomingB today t = false)
  ∧ (overdueB today t = false → upcomingB today t = false →
      onTrackB today t = true) := by
  cases hc : t.completionDate <;>
    simp [overdueB, upcomingB, onTrackB, hf, hc] <;> omega

/-- Witness for C1 at Scenario E (days counted from 2025-01-15, so
`today = 0`, `finish = 5` ≘ 2025-01-20, `completion = 6` ≘ 2025-01-21):
completed late, hence Overdue and not DueSoon. -/
theorem C1_schedule_classification_witness :
    overdueB 0 ⟨"t", "p", "子專案", some 0, some 5, some 6, none⟩ = true ∧
    upcomingB 0 ⟨"t", "p", "子專案", some 0, some 5, some 6, none⟩ = false := by
  have h := C1_schedule_classification 0 5
    ⟨"t", "p", "子專案", some 0, some 5, some 6, none⟩ rfl
  exact h.2.2.1 6 rfl (by decide) (by decide) (by decide)

/-- C2: `progress` is determined by status alone (Closed ↦ 1, In process ↦
1/2, Not start ↦ 0, missing or unrecognized ↦ 0), and when both dates are
present on a non-milestone row, `progressFinish = start + (finish − start)
* progress`; it is absent when either date is absent. -/
theorem C2_progress_calculator (t : Task) :
    (statusFilled t = "Closed" → progress t = 1)
  ∧ (statusFilled t = "In process" → progress t = 1/2)
  ∧ (statusFilled t = "Not start" → progress t = 0)
  ∧ (t.status = none → progress t = 0)
  ∧ (statusFilled t ≠ "Closed" → statusFilled t ≠ "In process" →
       statusFilled t ≠ "Not start" → progress t = 0)
  ∧ (∀ s f, t.start = some s → t.finish = some f → isMilestone t = false →
       progressFinish t = some ((s : ℚ) + ((f : ℚ) - (s : ℚ)) * progress t))
  ∧ (t.start = none → progressFinish t = none)
  ∧ (t.finish = none → progressFinish t = none) := by
  refine ⟨?_, ?_, ?_, ?_, ?_, ?_, ?_, ?_⟩
  · intro h; simp [progress, progressMap, h]
  · intro h; simp [progress, progressMap, h]
  · intro h; simp [progress, progressMap, h]
  · intro h; simp [progress, progressMap, statusFilled, h]
  · intro h1 h2 h3
    unfold progress progressMap
    split_ifs <;> simp_all
  · intro s f hs hf hm
    simp [progressFinish, hs, hf, hm]
  · intro h
    cases hf : t.finish <;> simp [progressFinish, h, hf]
  · intro h
    cases hs : t.start <;> simp [progressFinish, h, hs]

/-- Witness for C2 at Scenario D (days from 2025-01-01: `start = 0`,
`finish = 10`, status In process): `progressFinish = 5` ≘ 2025-01-06. -/
theorem C2_progress_calculator_witness :
    progressFinish ⟨"t", "p", "子專案", some 0, some 10, none, some "In process"⟩
      = some 5 := by
  have h := C2_progress_calculator
    ⟨"t", "p", "子專案", some 0, some 10, none, some "In process"⟩
  have h6 := h.2.2.2.2.2.1 0 10 rfl rfl (by decide)
  have hp := h.2.1 rfl
  rw [h6, hp]
  norm_num

/-- C6 counterexample: a milestone row (`Type = 里程碑`) whose status is
Closed gets `progress = 1`, not the claimed `0` — the `Progress` column is
computed from `Status` alone, with no milestone exception. -/
theorem C6_counterexample :
    progress ⟨"m", "p", "里程碑", some 0, some 10, none, some "Closed"⟩ = 1 ∧
    progress ⟨"m", "p", "里程碑", some 0, some 10, none, some "Closed"⟩ ≠ 0 := by
  constructor <;> norm_num [progress, progressMap, statusFilled]

/-- C6 amended: every milestone has `progressFinish` absent regardless of
status, but its `progress` fraction still follows the status map (so a
Closed milestone carries fraction 1, not 0). -/
theorem C6_amended (t : Task) (h : t.type = "里程碑") :
    progressFinish t = none
  ∧ (statusFilled t = "Closed" → progress t = 1)
  ∧ (statusFilled t = "In process" → progress t = 1/2) := by
  refine ⟨?_, ?_, ?_⟩
  · cases hs : t.start <;> cases hf : t.finish <;>
      simp [progressFinish, isMilestone, h, hs, hf]
  · intro hc; simp [progress, progressMap, hc]
  · intro hc; simp [progress, progressMap, hc]

/-- Witness for C6 amended: the Closed milestone used in the
counterexample indeed has no `progressFinish`. -/
theorem C6_amended_witness :
    progressFinish ⟨"m", "p", "里程碑", some 0, some 10, none, some "Closed"⟩
      = none := by
  exact (C6_amended ⟨"m", "p", "里程碑", some 0, some 10, none, some "Closed"⟩ rfl).1

/-- C7 counterexample: with `start = 10`, `finish = 0` (finish before
start) and status In process, `progressFinish = 5`, which violates
`start ≤ progressFinish`: the code never validates `start ≤ finish`. -/
theorem C7_counterexample :
    progressFinish ⟨"t", "p", "子專案", some 10, some 0, none, some "In process"⟩
      = some 5 ∧
    ¬ ((10 : ℚ) ≤ 5) := by
  constructor
  · simp +decide only [progressFinish, isMilestone, progress, progressMap, statusFilled,
      Option.getD]
    norm_num
  · norm_num

/-- C7 amended: `0 ≤ progress ≤ 1` always holds; the bracketing
`start ≤ progressFinish ≤ finish` holds whenever `start ≤ finish` (it can
fail when the row has `finish < start`, which the code accepts). -/
theorem C7_amended (t : Task) :
    (0 ≤ progress t ∧ progress t ≤ 1)
  ∧ (∀ s f pe, t.start = some s → t.finish = some f → (s : ℚ) ≤ (f : ℚ) →
      progressFinish t = some pe → (s : ℚ) ≤ pe ∧ pe ≤ (f : ℚ)) := by
  have hp : 0 ≤ progress t ∧ progress t ≤ 1 := by
    unfold progress progressMap
    split_ifs <;> norm_num
  refine ⟨hp, ?_⟩
  intro s f pe hs hf hsf hpe
  rcases Bool.eq_false_or_eq_true (isMilestone t) with hm | hm <;>
    rw [progressFinish.eq_def, hs, hf, hm] at hpe <;>
    simp at hpe
  constructor
  · nlinarith [hp.1, hp.2, hpe]
  · nlinarith [hp.1, hp.2, hpe]

/-- Witness for C7 amended, at the Scenario-D task (`start = 0`,
`finish = 10`, In process, `progressFinish = 5`). -/
theorem C7_amended_witness : (0 : ℚ) ≤ 5 ∧ (5 : ℚ) ≤ 10 := by
  have h := (C7_amended ⟨"t", "p", "子專案", some 0, some 10, none,
    some "In process"⟩).2 0 10 5 rfl rfl (by norm_num)
    (by
      simp +decide only [progressFinish, isMilestone, progress, progressMap,
        statusFilled, Option.getD]
      norm_num)
  exact_mod_cast h

/-- C9 counterexample: the English label `Parent` is not recognized by
`type_order`, so it falls to the `fillna(4)` rank 4, not rank 1. -/
theorem C9_counterexample :
    typeOrder ⟨"t", "p", "Parent", none, none, none, none⟩ = 4 ∧
    typeOrder ⟨"t", "p", "Parent", none, none, none, none⟩ ≠ 1 := by
  constructor <;> decide

/-- C9 amended: only the Chinese labels are recognized (母專案 ↦ 1,
子專案 ↦ 2, 里程碑 ↦ 3); the English labels Parent, Sub and Milestone all
receive the unrecognized rank 4, and a `Milestone`-typed task is not
treated as a milestone: its `progressFinish` is still computed when both
dates are present. -/
theorem C9_amended (t : Task) :
    (t.type = "Parent" ∨ t.type = "Sub" ∨ t.type = "Milestone" → typeOrder t = 4)
  ∧ (t.type = "母專案" → typeOrder t = 1)
  ∧ (t.type = "子專案" → typeOrder t = 2)
  ∧ (t.type = "里程碑" → typeOrder t = 3)
  ∧ (t.type = "Milestone" → isMilestone t = false ∧
      ∀ s f, t.start = some s → t.finish = some f →
        progressFinish t = some ((s : ℚ) + ((f : ℚ) - (s : ℚ)) * progress t)) := by
  refine ⟨?_, ?_, ?_, ?_, ?_⟩
  · rintro (h | h | h) <;> (unfold typeOrder; rw [h]; decide)
  · intro h; unfold typeOrder; rw [h]; decide
  · intro h; unfold typeOrder; rw [h]; decide
  · intro h; unfold typeOrder; rw [h]; decide
  · intro h
    have hm : isMilestone t = false := by unfold isMilestone; rw [h]; decide
    refine ⟨hm, fun s f hs hf => ?_⟩
    simp [progressFinish, hs, hf, hm]

/-- Witness for C9 amended: a `Sub`-labelled task gets rank 4. -/
theorem C9_amended_witness :
    typeOrder ⟨"t", "p", "Sub", none, none, none, none⟩ = 4 := by
  exact (C9_amended ⟨"t", "p", "Sub", none, none, none, none⟩).1 (Or.inr (Or.inl rfl))

/-- C8: a finish-dated task satisfies exactly one of Overdue, DueSoon,
OnTrack; a task with no finish date is in neither view; and the two views
never share a task. -/
theorem C8_exclusivity (today : Int) (t : Task) (ts : List Task) :
    (t.finish.isSome = true →
        (overdueB today t = true ∧ upcomingB today t = false ∧ onTrackB today t = false)
      ∨ (overdueB today t = false ∧ upcomingB today t = true ∧ onTrackB today t = false)
      ∨ (overdueB today t = false ∧ upcomingB today t = false ∧ onTrackB today t = true))
  ∧ (t.finish = none → t ∉ upcoming_tasks today ts ∧ t ∉ overdue_tasks today ts)
  ∧ (t ∈ upcoming_tasks today ts → t ∉ overdue_tasks today ts) := by
  refine ⟨?_, ?_, ?_⟩
  · intro hsome
    rcases hf : t.finish with _ | f
    · rw [hf] at hsome; simp at hsome
    · cases hc : t.completionDate <;>
        simp [overdueB, upcomingB, onTrackB, hf, hc] <;> omega
  · intro hf
    constructor
    · rw [upcoming_tasks, List.mem_filter]
      rintro ⟨-, hu⟩
      rw [upcomingB, hf] at hu
      simp at hu
    · rw [overdue_tasks, mem_dropDuplicates, List.mem_filter]
      rintro ⟨-, ho⟩
      cases hc : t.completionDate <;> simp [overdueB, hf, hc] at ho
  · intro hu ho
    rw [upcoming_tasks, List.mem_filter] at hu
    rw [overdue_tasks, mem_dropDuplicates, List.mem_filter] at ho
    have hu2 := hu.2
    have ho2 := ho.2
    cases hf : t.finish <;> cases hc : t.completionDate <;>
      simp [upcomingB, overdueB, hf, hc] at hu2 ho2 <;> omega

/-- Witness for C8: a task without a finish date is in neither the
due-soon nor the overdue view. -/
theorem C8_exclusivity_witness :
    ⟨"t", "p", "子專案", some 0, none, none, none⟩ ∉
      upcoming_tasks 0 [⟨"t", "p", "子專案", some 0, none, none, none⟩] ∧
    ⟨"t", "p", "子專案", some 0, none, none, none⟩ ∉
      overdue_tasks 0 [⟨"t", "p", "子專案", some 0, none, none, none⟩] := by
  exact (C8_exclusivity 0 ⟨"t", "p", "子專案", some 0, none, none, none⟩
    [⟨"t", "p", "子專案", some 0, none, none, none⟩]).2.1 rfl

/-- Missing-start rank (`na_position='last'`): a missing `Start` sorts after every present one,
modelled by a rank component that is 0 for present and 1 for missing. -/
def startRank (t : Task) : ℕ := if t.start.isSome then 0 else 1

/-- The lexicographic key of
`df.sort_values(by=['Project', 'TypeOrder', 'Start'], ascending=True)`. -/
def taskKey (t : Task) : String ×ₗ (ℕ ×ₗ (ℕ ×ₗ Int)) :=
  toLex (t.project, toLex (typeOrder t, toLex (startRank t, t.start.getD 0)))

/-- Boolean comparison of sort keys. -/
def keyLE (t u : Task) : Bool := decide (taskKey t ≤ taskKey u)

/-- The multi-column `sort_values` call: pandas uses a stable lexicographic
sort (`numpy.lexsort`) when `by` lists several columns. -/
def sortTasks (ts : List Task) : List Task := ts.mergeSort keyLE

lemma keyLE_trans : ∀ a b c : Task,
    keyLE a b = true → keyLE b c = true → keyLE a c = true := by
  intro a b c hab hbc
  simp only [keyLE, decide_eq_true_eq] at hab hbc ⊢
  exact le_trans hab hbc

lemma keyLE_total : ∀ a b : Task, (keyLE a b || keyLE b a) = true := by
  intro a b
  simp only [keyLE, Bool.or_eq_true, decide_eq_true_eq]
  exact le_total _ _

/-- C5: the hierarchy sort orders tasks by the (project, kind-rank, start)
key, is stable (for each key value, the subsequence carrying that key is
exactly the input's subsequence), and is idempotent. -/
theorem C5_hierarchy_sort (ts : List Task) (k : String ×ₗ (ℕ ×ₗ (ℕ ×ₗ Int))) :
    (sortTasks ts).Pairwise (fun a b => keyLE a b = true)
  ∧ (sortTasks ts).filter (fun t => decide (taskKey t = k))
      = ts.filter (fun t => decide (taskKey t = k))
  ∧ sortTasks (sortTasks ts) = sortTasks ts := by
  refine ⟨List.sorted_mergeSort keyLE_trans keyLE_total ts, ?_, ?_⟩
  · have hmem : ∀ a ∈ ts.filter (fun t => decide (taskKey t = k)), taskKey a = k := by
      intro a ha
      simpa using (List.mem_filter.mp ha).2
    have hpair : (ts.filter (fun t => decide (taskKey t = k))).Pairwise
        (fun a b => keyLE a b = true) := by
      apply List.pairwise_of_forall_mem_list
      intro a ha b hb
      simp only [keyLE, decide_eq_true_eq, hmem a ha, hmem b hb, le_refl]
    have hsub : (ts.filter (fun t => decide (taskKey t = k))).Sublist (sortTasks ts) :=
      List.sublist_mergeSort keyLE_trans keyLE_total hpair (List.filter_sublist ts)
    have hsub2 : (ts.filter (fun t => decide (taskKey t = k))).Sublist
        ((sortTasks ts).filter (fun t => decide (taskKey t = k))) := by
      have h := hsub.filter (fun t => decide (taskKey t = k))
      rw [List.filter_filter] at h
      simpa only [Bool.and_self] using h
    have hperm : ((sortTasks ts).filter (fun t => decide (taskKey t = k))).Perm
        (ts.filter (fun t => decide (taskKey t = k))) :=
      (List.mergeSort_perm ts keyLE).filter _
    exact (hsub2.eq_of_length hperm.length_eq.symm).symm
  · exact List.mergeSort_of_sorted (List.sorted_mergeSort keyLE_trans keyLE_total ts)

/-- C10: the overdue view deduplicates fully identical rows (each
qualifying row appears exactly once however often it is duplicated in the
input), the due-soon view does not (a qualifying row appears as often as
in the input), and on duplicate-free inputs each view lists each
qualifying task exactly once. -/
theorem C10_duplicate_rows (today : Int) (ts : List Task) (t : Task) :
    (t ∈ ts → overdueB today t = true → (overdue_tasks today ts).count t = 1)
  ∧ (upcomingB today t = true → (upcoming_tasks today ts).count t = ts.count t)
  ∧ (overdue_tasks today ts).Nodup
  ∧ (ts.Nodup → upcomingB today t = true → t ∈ ts →
      (upcoming_tasks today ts).count t = 1) := by
  refine ⟨?_, ?_, nodup_dropDuplicates _, ?_⟩
  · intro hmem hq
    have hm2 : t ∈ overdue_tasks today ts := by
      rw [overdue_tasks, mem_dropDuplicates, List.mem_filter]
      exact ⟨hmem, hq⟩
    exact List.count_eq_one_of_mem (nodup_dropDuplicates _) hm2
  · intro hq
    exact List.count_filter hq
  · intro hnd hq hmem
    have hm2 : t ∈ upcoming_tasks today ts := by
      rw [upcoming_tasks, List.mem_filter]
      exact ⟨hmem, hq⟩
    exact List.count_eq_one_of_mem (hnd.filter _) hm2

/-- Witness for C10: a due-soon row duplicated twice appears twice in the
due-soon view but only once in the overdue-capable machinery; here we
check the counts on a concrete duplicated input. -/
theorem C10_duplicate_rows_witness :
    (upcoming_tasks 0 [⟨"t", "p", "子專案", some 0, some 3, none, none⟩,
        ⟨"t", "p", "子專案", some 0, some 3, none, none⟩]).count
      ⟨"t", "p", "子專案", some 0, some 3, none, none⟩ =
    ([⟨"t", "p", "子專案", some 0, some 3, none, none⟩,
      ⟨"t", "p", "子專案", some 0, some 3, none, none⟩] : List Task).count
      ⟨"t", "p", "子專案", some 0, some 3, none, none⟩ := by
  exact (C10_duplicate_rows 0 [⟨"t", "p", "子專案", some 0, some 3, none, none⟩,
    ⟨"t", "p", "子專案", some 0, some 3, none, none⟩]
    ⟨"t", "p", "子專案", some 0, some 3, none, none⟩).2.1 (by decide)

/-! ## Tick bucketing (`get_dynamic_tick_format`)

Weekly ticks work on plain day numbers.  The month-anchored frequencies
(`YS`, `QS`, `6MS`) work on an (month index, day of month) pair, where the
month index is `12 * year + (month − 1)`; `pd.date_range` with a
month-anchored frequency emits the anchor points (day 1 of the anchor
months) lying inside `[start, end]`, rolling an unaligned start forward to
the next anchor. -/

/-- Monday alignment `date_min - pd.to_timedelta(date_min.weekday(), unit='d')`: the Monday
on or before day `d` (day 0 of the epoch is a Monday, so `d % 7` is the
zero-based weekday). -/
def mondayOnOrBefore (d : Int) : Int := d - d % 7

/-- Length of `pd.date_range(mondayOnOrBefore s, e, freq='W-MON')`. -/
def weeklyCount (s e : Int) : ℕ :=
  if mondayOnOrBefore s ≤ e then ((e - mondayOnOrBefore s) / 7).toNat + 1 else 0

/-- The Weekly tick boundaries: Mondays from the Monday on or before
`date_min`, stepping 7 days, not exceeding `date_max`. -/
def weeklyBoundaries (s e : Int) : List Int :=
  (List.range (weeklyCount s e)).map (fun i : ℕ => mondayOnOrBefore s + 7 * (i : Int))

/-- A calendar date for month-anchored frequencies: month index
`12 * year + (month − 1)` and 1-based day of month. -/
structure MDate where
  mi : Int
  d : Int
deriving DecidableEq

/-- Chronological order on `MDate`. -/
def MDate.le (a b : MDate) : Prop := a.mi < b.mi ∨ (a.mi = b.mi ∧ a.d ≤ b.d)

/-- Strict chronological order on `MDate`. -/
def MDate.lt (a b : MDate) : Prop := a.mi < b.mi ∨ (a.mi = b.mi ∧ a.d < b.d)

instance (a b : MDate) : Decidable (a.le b) :=
  inferInstanceAs (Decidable (a.mi < b.mi ∨ (a.mi = b.mi ∧ a.d ≤ b.d)))

instance (a b : MDate) : Decidable (a.lt b) :=
  inferInstanceAs (Decidable (a.mi < b.mi ∨ (a.mi = b.mi ∧ a.d < b.d)))

/-- Largest month index whose month start (day 1) is still ≤ `e`. -/
def msLimit (e : MDate) : Int := if 1 ≤ e.d then e.mi else e.mi - 1

/-- Length of the month-anchored `pd.date_range`: anchors
`mi0, mi0 + step, …` whose month start is ≤ `e`. -/
def anchorCount (mi0 step : Int) (e : MDate) : ℕ :=
  if mi0 ≤ msLimit e then ((msLimit e - mi0) / step).toNat + 1 else 0

/-- Anchored range `pd.date_range(anchor mi0, e, freq=step months at month starts)`. -/
def anchors (mi0 step : Int) (e : MDate) : List MDate :=
  (List.range (anchorCount mi0 step e)).map (fun i : ℕ => ⟨mi0 + step * (i : Int), 1⟩)

/-- Year alignment `date_min.to_period('Y').to_timestamp()`: Jan 1 of the year of `s`. -/
def yearAlignedStart (s : MDate) : Int := s.mi - s.mi % 12

/-- The first month start on or after `s`: the roll-forward pandas applies
to the unaligned `date_range` start for freq `6MS`. -/
def monthStartOnOrAfter (s : MDate) : Int := if s.d ≤ 1 then s.mi else s.mi + 1

/-- The first quarter start (Jan/Apr/Jul/Oct 1, i.e. month index divisible
by 3) on or after `s`: the roll-forward for freq `QS`. -/
def quarterStartOnOrAfter (s : MDate) : Int :=
  monthStartOnOrAfter s + (3 - monthStartOnOrAfter s % 3) % 3

/-- Yearly ticks, `view_mode == "每年"`. -/
def yearlyBoundaries (s e : MDate) : List MDate := anchors (yearAlignedStart s) 12 e

/-- Semiannual ticks, `view_mode == "每半年"`. -/
def semiannualBoundaries (s e : MDate) : List MDate := anchors (monthStartOnOrAfter s) 6 e

/-- Quarterly ticks, `view_mode == "每季"`. -/
def quarterlyBoundaries (s e : MDate) : List MDate := anchors (quarterStartOnOrAfter s) 3 e

lemma head?_map_range {α : Type} (f : ℕ → α) (n : ℕ) (hn : n ≠ 0) :
    ((List.range n).map f).head? = some (f 0) := by
  cases n with
  | zero => exact absurd rfl hn
  | succ m => rw [List.range_succ_eq_map]; simp

lemma getLast?_map_range {α : Type} (f : ℕ → α) (n : ℕ) (hn : n ≠ 0) :
    ((List.range n).map f).getLast? = some (f (n - 1)) := by
  rw [List.getLast?_eq_getElem?, List.length_map, List.length_range,
    List.getElem?_map, List.getElem?_range (by omega)]
  rfl

lemma pairwise_map_range {α : Type} {R : α → α → Prop} (f : ℕ → α) (n : ℕ)
    (h : ∀ i j : ℕ, i < j → R (f i) (f j)) :
    ((List.range n).map f).Pairwise R :=
  List.Pairwise.map f (fun a b => h a b) (List.pairwise_lt_range n)

lemma step_bound {X step : Int} (hstep : 0 < step) (hX : 0 ≤ X) :
    X - step < step * ((X / step).toNat : Int)
  ∧ step * ((X / step).toNat : Int) ≤ X := by
  have hdiv0 : 0 ≤ X / step := Int.ediv_nonneg hX hstep.le
  rw [Int.toNat_of_nonneg hdiv0]
  have hid := Int.ediv_add_emod X step
  have hmod1 : X % step < step := Int.emod_lt_of_pos X hstep
  have hmod0 : 0 ≤ X % step := Int.emod_nonneg X (ne_of_gt hstep)
  constructor <;> linarith

lemma mem_anchors {mi0 step : Int} {e : MDate} {b : MDate} (hstep : 0 < step) :
    b ∈ anchors mi0 step e ↔
      ∃ i : ℕ, step * (i : Int) ≤ msLimit e - mi0 ∧ b = ⟨mi0 + step * (i : Int), 1⟩ := by
  simp only [anchors, List.mem_map, List.mem_range]
  constructor
  · rintro ⟨i, hi, rfl⟩
    refine ⟨i, ?_, rfl⟩
    rw [anchorCount] at hi
    split at hi
    case isTrue hle =>
      have hX0 : (0 : Int) ≤ msLimit e - mi0 := by linarith
      have h1 : (i : Int) ≤ (msLimit e - mi0) / step := by
        have h2 := Int.toNat_of_nonneg (Int.ediv_nonneg hX0 hstep.le)
        omega
      have h3 := (Int.le_ediv_iff_mul_le hstep).mp h1
      linarith
    case isFalse => omega
  · rintro ⟨i, hi, rfl⟩
    refine ⟨i, ?_, rfl⟩
    have hi0 : (0 : Int) ≤ step * (i : Int) := by positivity
    have hle : mi0 ≤ msLimit e := by linarith
    rw [anchorCount, if_pos hle]
    have h1 : (i : Int) ≤ (msLimit e - mi0) / step :=
      (Int.le_ediv_iff_mul_le hstep).mpr (by linarith)
    have h2 := Int.toNat_of_nonneg (Int.ediv_nonneg (by linarith) hstep.le)
    omega

lemma anchors_sorted {mi0 step : Int} {e : MDate} (hstep : 0 < step) :
    (anchors mi0 step e).Pairwise MDate.lt := by
  rw [anchors]
  apply pairwise_map_range
  intro i j hij
  have h : (i : Int) < (j : Int) := by exact_mod_cast hij
  refine Or.inl ?_
  show mi0 + step * (i : Int) < mi0 + step * (j : Int)
  nlinarith

lemma anchors_all_le {mi0 step : Int} {e : MDate} (hstep : 0 < step) :
    ∀ b ∈ anchors mi0 step e, b.le e := by
  intro b hb
  rcases (mem_anchors hstep).mp hb with ⟨i, hi, rfl⟩
  simp only [MDate.le]
  by_cases hd : 1 ≤ e.d
  · rw [msLimit, if_pos hd] at hi
    omega
  · rw [msLimit, if_neg hd] at hi
    omega

lemma anchors_ne_nil {mi0 step : Int} {e : MDate} :
    anchors mi0 step e ≠ [] ↔ mi0 ≤ msLimit e := by
  rw [anchors, anchorCount]
  split
  case isTrue h => simp [h]
  case isFalse h => simp [h]

lemma anchors_head {mi0 step : Int} {e : MDate} (hne : mi0 ≤ msLimit e) :
    (anchors mi0 step e).head? = some ⟨mi0, 1⟩ := by
  rw [anchors]
  rw [head?_map_range _ _ (by rw [anchorCount, if_pos hne]; omega)]
  simp

lemma anchors_last {mi0 step : Int} {e : MDate} (hstep : 0 < step)
    (hne : mi0 ≤ msLimit e) :
    ∃ L : MDate, (anchors mi0 step e).getLast? = some L
      ∧ MDate.le ⟨e.mi - step, e.d⟩ L ∧ MDate.le L e := by
  have hcount : anchorCount mi0 step e = ((msLimit e - mi0) / step).toNat + 1 := by
    rw [anchorCount, if_pos hne]
  refine ⟨⟨mi0 + step * (((msLimit e - mi0) / step).toNat : Int), 1⟩, ?_, ?_, ?_⟩
  · rw [anchors, hcount, getLast?_map_range _ _ (by omega)]
    simp
  · have hb := (step_bound hstep (by linarith : (0:Int) ≤ msLimit e - mi0)).1
    simp only [MDate.le]
    by_cases hd : 1 ≤ e.d
    · rw [msLimit, if_pos hd] at hb ⊢
      omega
    · rw [msLimit, if_neg hd] at hb ⊢
      omega
  · apply anchors_all_le hstep
    rw [mem_anchors hstep]
    refine ⟨((msLimit e - mi0) / step).toNat, ?_, rfl⟩
    exact (step_bound hstep (by linarith : (0:Int) ≤ msLimit e - mi0)).2

lemma mem_weeklyBoundaries {s e b : Int} :
    b ∈ weeklyBoundaries s e ↔
      ∃ i : ℕ, 7 * (i : Int) ≤ e - mondayOnOrBefore s
        ∧ b = mondayOnOrBefore s + 7 * (i : Int) := by
  simp only [weeklyBoundaries, List.mem_map, List.mem_range, weeklyCount]
  constructor
  · rintro ⟨i, hi, rfl⟩
    refine ⟨i, ?_, rfl⟩
    split at hi <;> omega
  · rintro ⟨i, hi, rfl⟩
    refine ⟨i, ?_, rfl⟩
    split <;> omega

lemma weeklyBoundaries_sorted (s e : Int) :
    (weeklyBoundaries s e).Pairwise (· < ·) := by
  rw [weeklyBoundaries]
  apply pairwise_map_range
  intro i j hij
  have h : (i : Int) < (j : Int) := by exact_mod_cast hij
  omega

lemma weeklyBoundaries_head {s e : Int} (h : mondayOnOrBefore s ≤ e) :
    (weeklyBoundaries s e).head? = some (mondayOnOrBefore s) := by
  rw [weeklyBoundaries, head?_map_range _ _ (by rw [weeklyCount, if_pos h]; omega)]
  simp

lemma weeklyBoundaries_last {s e : Int} (h : mondayOnOrBefore s ≤ e) :
    ∃ L, (weeklyBoundaries s e).getLast? = some L ∧ e - 7 ≤ L ∧ L ≤ e := by
  have hcount : weeklyCount s e = ((e - mondayOnOrBefore s) / 7).toNat + 1 := by
    rw [weeklyCount, if_pos h]
  refine ⟨mondayOnOrBefore s + 7 * (((e - mondayOnOrBefore s) / 7).toNat : Int),
    ?_, ?_, ?_⟩
  · rw [weeklyBoundaries, hcount, getLast?_map_range _ _ (by omega)]
    simp
  · omega
  · omega

/-- C4: the first Weekly boundary is `min_start` minus its zero-based
weekday offset (equal to `min_start` itself on a Monday), every boundary
is a Monday (`b % 7 = 0` with the Monday epoch), consecutive boundaries
differ by exactly 7 days, and no boundary exceeds `max_finish`. -/
theorem C4_weekly_ticks (s e : Int) (h : mondayOnOrBefore s ≤ e) :
    (weeklyBoundaries s e).head? = some (s - s % 7)
  ∧ (s % 7 = 0 → (weeklyBoundaries s e).head? = some s)
  ∧ (∀ b ∈ weeklyBoundaries s e, b % 7 = 0)
  ∧ (∀ (i : ℕ) (a b : Int), (weeklyBoundaries s e)[i]? = some a →
      (weeklyBoundaries s e)[i + 1]? = some b → b = a + 7)
  ∧ (∀ b ∈ weeklyBoundaries s e, b ≤ e) := by
  refine ⟨weeklyBoundaries_head h, ?_, ?_, ?_, ?_⟩
  · intro h0
    rw [weeklyBoundaries_head h, mondayOnOrBefore, h0]
    norm_num
  · intro b hb
    rcases mem_weeklyBoundaries.mp hb with ⟨i, hi, rfl⟩
    rw [mondayOnOrBefore]
    omega
  · intro i a b ha hb
    rw [weeklyBoundaries, List.getElem?_eq_some_iff] at ha hb
    obtain ⟨hia, ha⟩ := ha
    obtain ⟨hib, hb⟩ := hb
    rw [List.getElem_map, List.getElem_range] at ha hb
    subst ha
    subst hb
    push_cast
    ring
  · intro b hb
    rcases mem_weeklyBoundaries.mp hb with ⟨i, hi, rfl⟩
    omega

/-- Witness for C4 on a concrete span: `s = 7` is a Monday, so the first
boundary is 7 itself, and all boundaries stay ≤ 21. -/
theorem C4_weekly_ticks_witness :
    (weeklyBoundaries 7 21).head? = some 7
  ∧ ∀ b ∈ weeklyBoundaries 7 21, b ≤ 21 := by
  have h := C4_weekly_ticks 7 21 (by decide)
  exact ⟨h.2.1 (by decide), h.2.2.2.2⟩

/-- C3 counterexample: with `min_start` = 2025-01-15 (month index 24300 =
12·2025, day 15) and `max_finish` = 2025-12-31 (month index 24311, day
31), the Semiannual boundary sequence starts at 2025-02-01 (month index
24301), which is after `min_start` — so the claimed "first boundary ≤
min_start" and "begins at the month-aligned start of min_start" both fail
(the month-aligned start would be 2025-01-01, index 24300). -/
theorem C3_counterexample :
    (semiannualBoundaries ⟨24300, 15⟩ ⟨24311, 31⟩).head? = some ⟨24301, 1⟩
  ∧ ¬ MDate.le ⟨24301, 1⟩ ⟨24300, 15⟩
  ∧ (24301 : Int) ≠ 24300 := by
  refine ⟨by decide, by decide, by decide⟩

/-- C3 amended: every granularity's boundary sequence is strictly
increasing, and when nonempty its last boundary lies within one bucket
width below `max_finish` and never beyond it.  Weekly and Yearly first
boundaries are on or before `min_start`; but Quarterly and Semiannual
sequences begin at the first quarter-start / month-start anchor on or
AFTER `min_start` (pandas rolls the unaligned range start forward), at
most one bucket-alignment unit ahead — in particular Semiannual begins at
the first month start on or after `min_start`, not at `min_start`'s
month-aligned start. -/
theorem C3_tick_coverage (ds de : Int) (s e : MDate)
    (hde : mondayOnOrBefore ds ≤ de) (hse : MDate.le s e)
    (hsd : 1 ≤ s.d) (hed : 1 ≤ e.d) :
    ((weeklyBoundaries ds de).Pairwise (· < ·)
      ∧ (weeklyBoundaries ds de).head? = some (mondayOnOrBefore ds)
      ∧ mondayOnOrBefore ds ≤ ds
      ∧ ∃ L, (weeklyBoundaries ds de).getLast? = some L ∧ de - 7 ≤ L ∧ L ≤ de)
  ∧ ((yearlyBoundaries s e).Pairwise MDate.lt
      ∧ (yearlyBoundaries s e).head? = some ⟨yearAlignedStart s, 1⟩
      ∧ MDate.le ⟨yearAlignedStart s, 1⟩ s
      ∧ ∃ L, (yearlyBoundaries s e).getLast? = some L
          ∧ MDate.le ⟨e.mi - 12, e.d⟩ L ∧ MDate.le L e)
  ∧ ((quarterlyBoundaries s e).Pairwise MDate.lt
      ∧ MDate.le s ⟨quarterStartOnOrAfter s, 1⟩
      ∧ quarterStartOnOrAfter s ≤ s.mi + 3
      ∧ (quarterlyBoundaries s e ≠ [] →
          (quarterlyBoundaries s e).head? = some ⟨quarterStartOnOrAfter s, 1⟩
          ∧ ∃ L, (quarterlyBoundaries s e).getLast? = some L
              ∧ MDate.le ⟨e.mi - 3, e.d⟩ L ∧ MDate.le L e))
  ∧ ((semiannualBoundaries s e).Pairwise MDate.lt
      ∧ MDate.le s ⟨monthStartOnOrAfter s, 1⟩
      ∧ monthStartOnOrAfter s ≤ s.mi + 1
      ∧ (semiannualBoundaries s e ≠ [] →
          (semiannualBoundaries s e).head? = some ⟨monthStartOnOrAfter s, 1⟩
          ∧ ∃ L, (semiannualBoundaries s e).getLast? = some L
              ∧ MDate.le ⟨e.mi - 6, e.d⟩ L ∧ MDate.le L e)) := by
  have hsmi : s.mi ≤ e.mi := by
    rcases hse with h | ⟨h, -⟩ <;> omega
  refine ⟨⟨weeklyBoundaries_sorted ds de, weeklyBoundaries_head hde, ?_,
      weeklyBoundaries_last hde⟩, ⟨?_, ?_, ?_, ?_⟩, ⟨?_, ?_, ?_, ?_⟩,
      ⟨?_, ?_, ?_, ?_⟩⟩
  · rw [mondayOnOrBefore]
    omega
  · exact anchors_sorted (by norm_num)
  · apply anchors_head
    rw [msLimit, if_pos hed, yearAlignedStart]
    omega
  · show yearAlignedStart s < s.mi ∨ (yearAlignedStart s = s.mi ∧ 1 ≤ s.d)
    rw [yearAlignedStart]
    omega
  · exact anchors_last (by norm_num)
      (by rw [msLimit, if_pos hed, yearAlignedStart]; omega)
  · exact anchors_sorted (by norm_num)
  · show s.mi < quarterStartOnOrAfter s
      ∨ (s.mi = quarterStartOnOrAfter s ∧ s.d ≤ 1)
    rw [quarterStartOnOrAfter, monthStartOnOrAfter]
    split <;> omega
  · rw [quarterStartOnOrAfter, monthStartOnOrAfter]
    split <;> omega
  · intro hne
    rw [quarterlyBoundaries, anchors_ne_nil] at hne
    exact ⟨anchors_head hne, anchors_last (by norm_num) hne⟩
  · exact anchors_sorted (by norm_num)
  · show s.mi < monthStartOnOrAfter s
      ∨ (s.mi = monthStartOnOrAfter s ∧ s.d ≤ 1)
    rw [monthStartOnOrAfter]
    split <;> omega
  · rw [monthStartOnOrAfter]
    split <;> omega
  · intro hne
    rw [semiannualBoundaries, anchors_ne_nil] at hne
    exact ⟨anchors_head hne, anchors_last (by norm_num) hne⟩

/-- Witness for C3 amended, at the counterexample's dates: the Semiannual
sequence starts at 2025-02-01 (index 24301), on or after `min_start`
2025-01-15. -/
theorem C3_tick_coverage_witness :
    (semiannualBoundaries ⟨24300, 15⟩ ⟨24311, 31⟩).head? = some ⟨24301, 1⟩
  ∧ MDate.le ⟨24300, 15⟩ ⟨24301, 1⟩ := by
  have h := C3_tick_coverage 7 21 ⟨24300, 15⟩ ⟨24311, 31⟩ (by decide) (by decide)
    (by decide) (by decide)
  exact ⟨(h.2.2.2.2.2.2 (by decide)).1, h.2.2.2.2.1⟩

end PM
